import Mathlib

/-!
Verification of the federated-learning core of the repository.

The numeric domain of the Python code (numpy float arrays) is embedded as
exact rationals; tensors are nested lists.  Each definition below is a direct
translation of the corresponding Python function, keeping its name.
-/

set_option maxRecDepth 4000

deriving instance DecidableEq for Except

/-- A tensor row: list of rationals (one numpy array row). -/
abbrev Vec := List ℚ

/-- A 2-d tensor (numpy array of shape rows x cols) as a list of rows. -/
abbrev Mat := List Vec

/-- Element-wise addition of two equally shaped rows (numpy broadcasting is
never exercised by the claims; shapes are equal in every theorem). -/
def vecAdd (a b : Vec) : Vec := List.zipWith (· + ·) a b

/-- Element-wise addition of two equally shaped matrices. -/
def matAdd (a b : Mat) : Mat := List.zipWith vecAdd a b

/-- Scalar multiple of a matrix, `np.array(m) * c`. -/
def matSmul (c : ℚ) (m : Mat) : Mat := m.map (fun row => row.map (fun x => c * x))

/-- Sum of a non-empty list of matrices, `np.sum(list_of_arrays, axis=0)`. -/
def sumMats : List Mat → Mat
  | [] => []
  | h :: t => t.foldl matAdd h

/-- Entry `(i, j)` of a matrix, with default `0` out of bounds. -/
def entryD (m : Mat) (i j : ℕ) : ℚ := (m.getD i []).getD j 0

/-- Shape of a matrix: the list of its row lengths. -/
def matShape (m : Mat) : List ℕ := m.map List.length

/-- Architecture metadata dictionary of a model
(`LocalNeuralNetwork.get_weights`): input size, hidden sizes, output size. -/
structure Arch where
  input_size : ℕ
  hidden_sizes : List ℕ
  output_size : ℕ
deriving DecidableEq

/-- A model weight dictionary as produced by `LocalNeuralNetwork.get_weights`:
one weight matrix per layer, one bias matrix (numpy shape `(1, out)`) per
layer, plus the architecture metadata.  The non-semantic `timestamp` and
`training_info` fields are omitted. -/
structure ModelWeights where
  weights : List Mat
  biases : List Mat
  architecture : Arch
deriving DecidableEq

/-- A local model update dictionary (`receive_local_update` /
`LocalModelUpdate`): device id, weight dictionary, sample count, and the
optional custom `weight` used by the `weighted` strategy
(`update.get('weight', 1.0)`, so it defaults to `1`). -/
structure ModelUpdate where
  device_id : String
  weights : ModelWeights
  sample_count : ℕ
  weight : ℚ := 1
deriving DecidableEq

/-- Translation of `model_utils.aggregate_model_weights`: weighted average of
the models, layer by layer.  `ws = none` is Python `weights=None` (equal
weights `1/n`); an explicit list is normalized by its sum.  Returns `none`
exactly on the empty list. -/
def aggregate_model_weights (models : List ModelWeights) (ws : Option (List ℚ)) :
    Option ModelWeights :=
  match models with
  | [] => none
  | m0 :: rest =>
    let n := (m0 :: rest).length
    let weights : List ℚ :=
      match ws with
      | none => List.replicate n ((1 : ℚ) / n)
      | some w => w.map (fun x => x / w.sum)
    let nLayers := m0.weights.length
    some
      { weights := (List.range nLayers).map (fun l =>
          sumMats (List.zipWith (fun mdl wt => matSmul wt (mdl.weights.getD l []))
            (m0 :: rest) weights))
      , biases := (List.range nLayers).map (fun l =>
          sumMats (List.zipWith (fun mdl wt => matSmul wt (mdl.biases.getD l []))
            (m0 :: rest) weights))
      , architecture := m0.architecture }

/-- Translation of `ModelAggregator.federated_averaging`: weights proportional
to sample counts (`update.get('sample_count', 1)` is always present here). -/
def federated_averaging (model_updates : List ModelUpdate) : Option ModelWeights :=
  match model_updates with
  | [] => none
  | u0 :: rest =>
    let sample_counts : List ℕ := (u0 :: rest).map (fun u => u.sample_count)
    let total_samples : ℕ := sample_counts.sum
    let weights := sample_counts.map (fun (c : ℕ) => (c : ℚ) / (total_samples : ℚ))
    aggregate_model_weights ((u0 :: rest).map (fun u => u.weights)) (some weights)

/-- Translation of `ModelAggregator.equal_averaging`. -/
def equal_averaging (model_updates : List ModelUpdate) : Option ModelWeights :=
  match model_updates with
  | [] => none
  | u0 :: rest =>
    aggregate_model_weights ((u0 :: rest).map (fun u => u.weights)) none

/-- Translation of `ModelAggregator.weighted_averaging`. -/
def weighted_averaging (model_updates : List ModelUpdate) : Option ModelWeights :=
  match model_updates with
  | [] => none
  | u0 :: rest =>
    let custom_weights := (u0 :: rest).map (fun u => u.weight)
    aggregate_model_weights ((u0 :: rest).map (fun u => u.weights)) (some custom_weights)

/-- Median of a list of rationals, `np.median`: middle element of the sorted
list for odd length, mean of the two middle elements for even length. -/
def medianQ (xs : List ℚ) : ℚ :=
  let s := xs.mergeSort (fun a b => decide (a ≤ b))
  let n := s.length
  if n % 2 = 1 then s.getD (n / 2) 0
  else (s.getD (n / 2 - 1) 0 + s.getD (n / 2) 0) / 2

/-- Coordinate-wise median of a stack of equally shaped matrices,
`np.median(stack, axis=0)`; the first matrix fixes the output shape. -/
def medianMats (ms : List Mat) : Mat :=
  match ms with
  | [] => []
  | m0 :: _ =>
    (List.range m0.length).map (fun i =>
      (List.range ((m0.getD i []).length)).map (fun j =>
        medianQ (ms.map (fun m => entryD m i j))))

/-- Translation of `ModelAggregator.median_aggregation`. -/
def median_aggregation (model_updates : List ModelUpdate) : Option ModelWeights :=
  match model_updates with
  | [] => none
  | u0 :: rest =>
    let models := (u0 :: rest).map (fun u => u.weights)
    let nLayers := u0.weights.weights.length
    some
      { weights := (List.range nLayers).map (fun l =>
          medianMats (models.map (fun m => m.weights.getD l [])))
      , biases := (List.range nLayers).map (fun l =>
          medianMats (models.map (fun m => m.biases.getD l [])))
      , architecture := u0.weights.architecture }

/-- Round metadata built by `ModelAggregator.aggregate` (timestamp omitted). -/
structure AggMetadata where
  aggregation_round : ℕ
  strategy : String
  num_models : ℕ
  device_ids : List String
  total_samples : ℕ
deriving DecidableEq

/-- Error outcomes of `ModelAggregator.aggregate`.  The Python code signals
both by returning `(None, None)`, from two distinct branches; the spec names
them `EmptyUpdateSet` and `UnknownStrategy`.  The taxonomy also names
`IncompatibleArchitectures`, but no code path of the repository produces it. -/
inductive AggError where
  | emptyUpdateSet : AggError
  | unknownStrategy : AggError
  | incompatibleArchitectures : AggError
deriving DecidableEq

/-- Flattening of a weight dictionary used by
`model_utils.compute_model_similarity`: all weight matrices flattened and
concatenated, then all bias matrices. -/
def flattenWeights (mw : ModelWeights) : List ℚ :=
  (mw.weights.map List.flatten).flatten ++ (mw.biases.map List.flatten).flatten

/-- Dot product of two flattened vectors (`np.dot`). -/
def dotQ (a b : List ℚ) : ℚ := (List.zipWith (· * ·) a b).sum

/-- Squared Euclidean norm of a flattened vector.  `np.linalg.norm v == 0`
holds exactly when this is `0`, so the zero-norm guard of the Python code is
expressed on the square. -/
def normSq (a : List ℚ) : ℚ := dotQ a a

/-- Translation of `model_utils.compute_model_similarity`: cosine similarity
of the two flattened vectors, `0` when either has zero norm.  The float
square root of `np.linalg.norm` is embedded as `Real.sqrt`. -/
noncomputable def compute_model_similarity (m1 m2 : ModelWeights) : ℝ :=
  let v1 := flattenWeights m1
  let v2 := flattenWeights m2
  if normSq v1 = 0 ∨ normSq v2 = 0 then 0
  else (dotQ v1 v2 : ℝ) / (Real.sqrt (normSq v1 : ℝ) * Real.sqrt (normSq v2 : ℝ))

/-- The pair list built by the double loop of
`ModelAggregator.compute_consensus_score`: similarities of every `(i, j)`
with `i < j`, in loop order. -/
noncomputable def pairSims : List ModelWeights → List ℝ
  | [] => []
  | m :: rest => rest.map (compute_model_similarity m) ++ pairSims rest

/-- Translation of `ModelAggregator.compute_consensus_score`. -/
noncomputable def compute_consensus_score (model_updates : List ModelUpdate) : ℝ :=
  if model_updates.length < 2 then 1
  else
    let sims := pairSims (model_updates.map (fun u => u.weights))
    if sims.isEmpty then 0 else sims.sum / (sims.length : ℝ)

/-- Python dict lookup on an association list (insertion ordered, first
match). -/
def dictGet : List (String × ℕ) → String → Option ℕ
  | [], _ => none
  | (k, v) :: t, d => if k = d then some v else dictGet t d

/-- Python dict assignment on an association list: replace the existing
binding, or append a new one. -/
def dictSet : List (String × ℕ) → String → ℕ → List (String × ℕ)
  | [], d, v => [(d, v)]
  | (k, w) :: t, d, v => if k = d then (k, v) :: t else (k, w) :: dictSet t d v

/-- The contribution bump of `GlobalModel.aggregate_updates`:
`if id not in dict: dict[id] = 0` followed by `dict[id] += 1`. -/
def bumpContribution (contrib : List (String × ℕ)) (d : String) :
    List (String × ℕ) :=
  dictSet contrib d ((dictGet contrib d).getD 0 + 1)

/-- Contribution count of a device, `dict.get(d, 0)`. -/
def contribOf (contrib : List (String × ℕ)) (d : String) : ℕ :=
  (dictGet contrib d).getD 0

/-- Round metadata appended to `GlobalModel.aggregation_history`
(timestamp omitted). -/
structure RoundMeta where
  num_devices : ℕ
  device_ids : List String
  total_samples : ℕ
  aggregation_strategy : String
deriving DecidableEq

/-- State of a `GlobalModel`: current model weight dictionary, append-only
aggregation history, and per-device contribution dictionary. -/
structure GlobalModelState where
  model : ModelWeights
  aggregation_history : List RoundMeta
  device_contributions : List (String × ℕ)
deriving DecidableEq

/-- Fresh `GlobalModel` around an initial (randomly initialized in Python)
model weight dictionary. -/
def GlobalModel.init (w0 : ModelWeights) : GlobalModelState :=
  { model := w0, aggregation_history := [], device_contributions := [] }

/-- Translation of `GlobalModel.aggregate_updates`: choose per-update weights
from the strategy tag (`fedavg` by samples, `weighted` by the custom field,
anything else equal), aggregate, then - on success - set the model weights,
append the round metadata, and bump each participating update's device
contribution once per update.  Returns the metadata and the new state;
`LocalNeuralNetwork.set_weights` replaces weights and biases only, keeping
the model's own architecture attributes. -/
def GlobalModel.aggregate_updates (st : GlobalModelState)
    (local_model_updates : List ModelUpdate) (aggregation_strategy : String) :
    Option RoundMeta × GlobalModelState :=
  match local_model_updates with
  | [] => (none, st)
  | _ :: _ =>
    let ws : Option (List ℚ) :=
      if aggregation_strategy = "fedavg" then
        some (local_model_updates.map (fun u =>
          (u.sample_count : ℚ) /
            (((local_model_updates.map (fun u => u.sample_count)).sum : ℕ) : ℚ)))
      else if aggregation_strategy = "weighted" then
        some (local_model_updates.map (fun u => u.weight))
      else none
    match aggregate_model_weights (local_model_updates.map (fun u => u.weights)) ws with
    | none => (none, st)
    | some agg =>
      let meta : RoundMeta :=
        { num_devices := local_model_updates.length
        , device_ids := local_model_updates.map (fun u => u.device_id)
        , total_samples := (local_model_updates.map (fun u => u.sample_count)).sum
        , aggregation_strategy := aggregation_strategy }
      (some meta,
        { model := { st.model with weights := agg.weights, biases := agg.biases }
        , aggregation_history := st.aggregation_history ++ [meta]
        , device_contributions :=
            (local_model_updates.map (fun u => u.device_id)).foldl
              bumpContribution st.device_contributions })

/-- A sensors record: the four fields are optional because an incoming dict
may lack any of them (Python raises `KeyError` on access). -/
structure Sensors where
  temperature : Option ℚ
  humidity : Option ℚ
  light : Option ℚ
  voltage : Option ℚ
deriving DecidableEq

/-- A buffered reading, the dict appended by `LocalModelManager.process_data`. -/
structure Reading where
  sensors : Sensors
  timestamp : ℕ
deriving DecidableEq

instance : Inhabited Reading := ⟨⟨⟨none, none, none, none⟩, 0⟩⟩

/-- Missing-field failure of a Python dict access. -/
structure KeyErr where
  field : String
deriving DecidableEq

/-- Dict access `sensors[field]`; raises `KeyError` when missing. -/
def getField (v : Option ℚ) (name : String) : Except KeyErr ℚ :=
  match v with
  | none => .error ⟨name⟩
  | some x => .ok x

/-- Feature extraction of `create_training_data`: the four required fields in
order, failing on the first missing one. -/
def extractFeatures (s : Sensors) : Except KeyErr (List ℚ) :=
  match getField s.temperature "temperature" with
  | .error e => .error e
  | .ok t =>
    match getField s.humidity "humidity" with
    | .error e => .error e
    | .ok h =>
      match getField s.light "light" with
      | .error e => .error e
      | .ok l =>
        match getField s.voltage "voltage" with
        | .error e => .error e
        | .ok v => .ok [t, h, l, v]

/-- Translation of `model_template.create_training_data`: input features from
the first reading; target from `next_reading` when given, else the input
itself (autoencoder style). -/
def create_training_data (sensor_reading : Sensors) (next_reading : Option Sensors) :
    Except KeyErr (List ℚ × List ℚ) :=
  match extractFeatures sensor_reading with
  | .error e => .error e
  | .ok X =>
    match next_reading with
    | none => .ok (X, X)
    | some nxt =>
      match extractFeatures nxt with
      | .error e => .error e
      | .ok y => .ok (X, y)

/-- Per-device slice of `LocalModelManager` state (`device_models`,
`device_data_buffers`, `training_counts` at one device id).  The neural
network itself is kept abstract in `M`: `process_data` only ever calls its
`train_step` and `predict` methods. -/
structure SessionState (M : Type) where
  model : M
  buffer : List Reading
  training_count : ℕ
deriving DecidableEq

/-- Sliding-window step of `process_data`: after the unconditional append,
`pop(0)` once the buffer length exceeds 1000 (the capacity is the literal
constant 1000 in the source). -/
def slideWindow (buf : List Reading) : List Reading :=
  if buf.length > 1000 then buf.tail else buf

/-- Result dict returned by `process_data` on a training step (device id,
echoed sensors and timestamp kept; `update_sent` reflects the
`training_count % update_frequency == 0` check; the network send itself is
external I/O and is not modelled). -/
structure ProcessResult where
  timestamp : ℕ
  sensors : Sensors
  prediction : List ℚ
  loss : ℚ
  training_count : ℕ
  update_sent : Bool
deriving DecidableEq

/-- Translation of `LocalModelManager.process_data` for one device session.
`trainStep` and `predict` are the two methods of the owned model that the
manager calls; `update_frequency` is the manager configuration.  The reading
is appended (and the window slid) before any field of `sensors` is read, so
a `KeyError` escapes with the buffer already mutated; with fewer than two
buffered readings no training happens and `None` is returned. -/
def process_data {M : Type} (trainStep : M → List ℚ → List ℚ → M × ℚ)
    (predict : M → List ℚ → List ℚ) (update_frequency : ℕ)
    (st : SessionState M) (sensors : Sensors) (timestamp : ℕ) :
    Except KeyErr (Option ProcessResult) × SessionState M :=
  let buffer := slideWindow (st.buffer ++ [{ sensors := sensors, timestamp := timestamp }])
  if buffer.length ≥ 2 then
    let current := (buffer.getD (buffer.length - 1) default).sensors
    let previous := (buffer.getD (buffer.length - 2) default).sensors
    match create_training_data previous (some current) with
    | .error e => (.error e, { st with buffer := buffer })
    | .ok (X, y) =>
      let step := trainStep st.model X y
      let model' := step.1
      let loss := step.2
      let count' := st.training_count + 1
      let should_update := count' % update_frequency = 0
      (.ok (some
        { timestamp := timestamp
        , sensors := sensors
        , prediction := predict model' X
        , loss := loss
        , training_count := count'
        , update_sent := should_update })
      , { model := model', buffer := buffer, training_count := count' })
  else
    (.ok none, { st with buffer := buffer })

/-- Translation of `ModelAggregator.aggregate`: empty check, string dispatch
over the four strategies, metadata construction.  `count` is the aggregator
state `self.aggregation_count` at call time. -/
def ModelAggregator.aggregate (strategy : String) (count : ℕ)
    (model_updates : List ModelUpdate) :
    Except AggError (Option ModelWeights × AggMetadata) :=
  if model_updates.isEmpty then .error .emptyUpdateSet
  else
    let aggregated : Option (Option ModelWeights) :=
      if strategy = "fedavg" then some (federated_averaging model_updates)
      else if strategy = "equal" then some (equal_averaging model_updates)
      else if strategy = "weighted" then some (weighted_averaging model_updates)
      else if strategy = "median" then some (median_aggregation model_updates)
      else none
    match aggregated with
    | none => .error .unknownStrategy
    | some agg =>
      .ok (agg,
        { aggregation_round := count
        , strategy := strategy
        , num_models := model_updates.length
        , device_ids := model_updates.map (fun u => u.device_id)
        , total_samples := (model_updates.map (fun u => u.sample_count)).sum })

/-- State of a `GlobalUpdateScheduler`: pending updates, the aggregator's
configured strategy tag and round counter, and the owned global model. -/
structure SchedulerState where
  pending_updates : List ModelUpdate
  strategy : String
  aggregation_count : ℕ
  global_model : GlobalModelState
deriving DecidableEq

/-- Translation of `GlobalUpdateScheduler.perform_aggregation`: skip when no
updates are pending; run `ModelAggregator.aggregate`; on a strategy error
(`aggregated_weights` is `None`) change nothing; on success apply
`GlobalModel.aggregate_updates` with strategy `fedavg`, clear the pending
buffer, and advance the aggregator round counter (disk save omitted). -/
def GlobalUpdateScheduler.perform_aggregation (st : SchedulerState) : SchedulerState :=
  if st.pending_updates.isEmpty then st
  else
    match ModelAggregator.aggregate st.strategy st.aggregation_count st.pending_updates with
    | .error _ => st
    | .ok (aggOpt, _meta) =>
      match aggOpt with
      | none => { st with aggregation_count := st.aggregation_count + 1 }
      | some _ =>
        { pending_updates := []
        , strategy := st.strategy
        , aggregation_count := st.aggregation_count + 1
        , global_model :=
            (GlobalModel.aggregate_updates st.global_model st.pending_updates "fedavg").2 }

/-! ### Helper lemmas on the tensor operations -/

theorem getD_zipWith_add (a b : List ℚ) (h : a.length = b.length) (j : ℕ) :
    (List.zipWith (· + ·) a b).getD j 0 = a.getD j 0 + b.getD j 0 := by
  induction a generalizing b j with
  | nil =>
    cases b with
    | nil => simp
    | cons y ys => simp at h
  | cons x xs ih =>
    cases b with
    | nil => simp at h
    | cons y ys =>
      cases j with
      | zero => simp
      | succ j => simpa using ih ys (by simpa using h) j

theorem matShape_matAdd (a b : Mat) (h : matShape a = matShape b) :
    matShape (matAdd a b) = matShape a := by
  induction a generalizing b with
  | nil => simp [matAdd, matShape]
  | cons r rs ih =>
    cases b with
    | nil => simp [matShape] at h
    | cons r2 rs2 =>
      simp only [matShape, List.map_cons, List.cons.injEq] at h
      simp only [matAdd, List.zipWith_cons_cons, matShape, List.map_cons, List.cons.injEq]
      constructor
      · simp [vecAdd, h.1]
      · simpa [matShape] using ih rs2 (by simp [matShape, h.2])

theorem entryD_matAdd (a b : Mat) (h : matShape a = matShape b) (i j : ℕ) :
    entryD (matAdd a b) i j = entryD a i j + entryD b i j := by
  induction a generalizing b i with
  | nil =>
    have hb : b = [] := by
      cases b with
      | nil => rfl
      | cons y ys => simp [matShape] at h
    subst hb; simp [entryD, matAdd]
  | cons r rs ih =>
    cases b with
    | nil => simp [matShape] at h
    | cons r2 rs2 =>
      simp only [matShape, List.map_cons, List.cons.injEq] at h
      cases i with
      | zero =>
        simpa [entryD, matAdd, vecAdd] using getD_zipWith_add r r2 h.1 j
      | succ i =>
        simpa [entryD, matAdd] using ih rs2 (by simp [matShape, h.2]) i

theorem getD_map_mul (c : ℚ) (r : List ℚ) (j : ℕ) :
    (r.map (fun x => c * x)).getD j 0 = c * r.getD j 0 := by
  induction r generalizing j with
  | nil => simp
  | cons x xs ih =>
    cases j with
    | zero => simp
    | succ j => simpa using ih j

theorem entryD_matSmul (c : ℚ) (m : Mat) (i j : ℕ) :
    entryD (matSmul c m) i j = c * entryD m i j := by
  induction m generalizing i with
  | nil => simp [entryD, matSmul]
  | cons r rs ih =>
    cases i with
    | zero =>
      simpa [entryD, matSmul] using getD_map_mul c r j
    | succ i => simpa [entryD, matSmul] using ih i

theorem matShape_matSmul (c : ℚ) (m : Mat) : matShape (matSmul c m) = matShape m := by
  simp [matShape, matSmul, List.map_map, Function.comp]

theorem entryD_foldl_matAdd (sh : List ℕ) (t : List Mat) (acc : Mat)
    (hacc : matShape acc = sh) (ht : ∀ m ∈ t, matShape m = sh) (i j : ℕ) :
    entryD (t.foldl matAdd acc) i j
      = entryD acc i j + (t.map (fun m => entryD m i j)).sum := by
  induction t generalizing acc with
  | nil => simp
  | cons m ms ih =>
    have hm : matShape m = sh := ht m (by simp)
    have h1 : matShape acc = matShape m := by rw [hacc, hm]
    rw [List.foldl_cons,
      ih (matAdd acc m) (by rw [matShape_matAdd _ _ h1, hacc]) (fun x hx => ht x (by simp [hx])),
      entryD_matAdd _ _ h1]
    simp [add_assoc]

theorem entryD_sumMats (sh : List ℕ) (m0 : Mat) (rest : List Mat)
    (h : ∀ m ∈ m0 :: rest, matShape m = sh) (i j : ℕ) :
    entryD (sumMats (m0 :: rest)) i j = ((m0 :: rest).map (fun m => entryD m i j)).sum := by
  simp only [sumMats]
  rw [entryD_foldl_matAdd sh rest m0 (h m0 (by simp)) (fun m hm => h m (by simp [hm]))]
  simp

theorem zipWith_map_both {α β γ δ : Type} (f : β → γ → δ) (g1 : α → β) (g2 : α → γ)
    (l : List α) :
    List.zipWith f (l.map g1) (l.map g2) = l.map (fun x => f (g1 x) (g2 x)) := by
  induction l with
  | nil => rfl
  | cons x xs ih => simp [ih]

theorem getD_range_map {α : Type} (L l : ℕ) (f : ℕ → α) (d : α) (h : l < L) :
    ((List.range L).map f).getD l d = f l := by
  rw [List.getD_eq_getElem _ _ (by simpa using h)]
  simp

theorem sum_map_div {S : ℚ} (l : List ℕ) :
    (l.map (fun (c : ℕ) => (c : ℚ) / S)).sum = ((l.map (fun (c : ℕ) => (c : ℚ))).sum) / S := by
  induction l with
  | nil => simp
  | cons x xs ih => simp [ih, add_div]

theorem cast_sum_nat (l : List ℕ) :
    (l.map (fun (c : ℕ) => (c : ℚ))).sum = ((l.sum : ℕ) : ℚ) := by
  induction l with
  | nil => simp
  | cons x xs ih => rw [List.map_cons, List.sum_cons, ih, List.sum_cons, Nat.cast_add]

theorem sum_map_div_sum (counts : List ℕ) (hS : 0 < counts.sum) :
    (counts.map (fun (c : ℕ) => (c : ℚ) / ((counts.sum : ℕ) : ℚ))).sum = 1 := by
  have hne : (((counts.sum : ℕ) : ℚ)) ≠ 0 := by
    exact_mod_cast Nat.pos_iff_ne_zero.mp hS
  rw [sum_map_div, cast_sum_nat, div_self hne]

theorem normalize_sum_one (l : List ℚ) (h : l.sum = 1) :
    l.map (fun x => x / l.sum) = l := by
  simp [h]

theorem forall_mem_zipWith {α β γ : Type} {P : γ → Prop} (f : α → β → γ)
    (as : List α) (bs : List β) (h : ∀ a ∈ as, ∀ b, P (f a b)) :
    ∀ x ∈ List.zipWith f as bs, P x := by
  induction as generalizing bs with
  | nil => simp
  | cons a as ih =>
    cases bs with
    | nil => simp
    | cons b bs =>
      intro x hx
      rcases (by simpa using hx : x = f a b ∨ x ∈ List.zipWith f as bs) with h1 | h2
      · exact h1 ▸ h a (by simp) b
      · exact ih bs (fun a ha b => h a (by simp [ha]) b) x h2

theorem zipWith_self_map {α β γ : Type} (f : α → β → γ) (g : α → β) (l : List α) :
    List.zipWith f l (l.map g) = l.map (fun x => f x (g x)) := by
  induction l with
  | nil => rfl
  | cons x xs ih => simp [ih]

theorem aggregate_entry (m0 : ModelWeights) (mrest : List ModelWeights)
    (w0 : ℚ) (wrest : List ℚ)
    (hsum : (w0 :: wrest).sum = 1)
    (hsh : ∀ m ∈ m0 :: mrest, ∀ l < m0.weights.length,
      matShape (m.weights.getD l []) = matShape (m0.weights.getD l []))
    (hshb : ∀ m ∈ m0 :: mrest, ∀ l < m0.weights.length,
      matShape (m.biases.getD l []) = matShape (m0.biases.getD l [])) :
    ∃ agg : ModelWeights,
      aggregate_model_weights (m0 :: mrest) (some (w0 :: wrest)) = some agg ∧
      agg.architecture = m0.architecture ∧
      ∀ l < m0.weights.length, ∀ i j,
        entryD (agg.weights.getD l []) i j
          = (List.zipWith (fun m w => w * entryD (m.weights.getD l []) i j)
              (m0 :: mrest) (w0 :: wrest)).sum
        ∧ entryD (agg.biases.getD l []) i j
          = (List.zipWith (fun m w => w * entryD (m.biases.getD l []) i j)
              (m0 :: mrest) (w0 :: wrest)).sum := by
  simp only [aggregate_model_weights]
  rw [normalize_sum_one _ hsum]
  refine ⟨_, rfl, rfl, ?_⟩
  intro l hl i j
  constructor
  · show entryD (((List.range m0.weights.length).map _).getD l []) i j = _
    rw [getD_range_map _ _ _ _ hl]
    rw [List.zipWith_cons_cons]
    rw [entryD_sumMats (matShape (m0.weights.getD l []))]
    · rw [List.map_cons, List.map_zipWith, List.zipWith_cons_cons]
      simp only [entryD_matSmul]
    · intro m hm
      rcases (by simpa using hm :
          m = matSmul w0 (m0.weights.getD l []) ∨
          m ∈ List.zipWith (fun mdl wt => matSmul wt (mdl.weights.getD l [])) mrest wrest) with h1 | h2
      · rw [h1, matShape_matSmul]
      · revert h2
        refine forall_mem_zipWith (P := fun m => matShape m = matShape (m0.weights.getD l []))
          _ _ _ ?_ m
        intro a ha b
        rw [matShape_matSmul]
        exact hsh a (by simp [ha]) l hl
  · show entryD (((List.range m0.weights.length).map _).getD l []) i j = _
    rw [getD_range_map _ _ _ _ hl]
    rw [List.zipWith_cons_cons]
    rw [entryD_sumMats (matShape (m0.biases.getD l []))]
    · rw [List.map_cons, List.map_zipWith, List.zipWith_cons_cons]
      simp only [entryD_matSmul]
    · intro m hm
      rcases (by simpa using hm :
          m = matSmul w0 (m0.biases.getD l []) ∨
          m ∈ List.zipWith (fun mdl wt => matSmul wt (mdl.biases.getD l [])) mrest wrest) with h1 | h2
      · rw [h1, matShape_matSmul]
      · revert h2
        refine forall_mem_zipWith (P := fun m => matShape m = matShape (m0.biases.getD l []))
          _ _ _ ?_ m
        intro a ha b
        rw [matShape_matSmul]
        exact hshb a (by simp [ha]) l hl

/-- C1: for every non-empty list of updates with identical architectures (and
matching tensor shapes, as the data model guarantees for well-formed weight
sets) and positive total sample count, FedAvg aggregation returns, for each
layer, the weight tensor and bias tensor whose every entry is the sum over
updates of `sample_count_u / total` times the corresponding entry of that
update's tensor. -/
theorem fedavg_weighted_average (u0 : ModelUpdate) (rest : List ModelUpdate)
    (_harch : ∀ u ∈ u0 :: rest, u.weights.architecture = u0.weights.architecture)
    (hwshape : ∀ u ∈ u0 :: rest, ∀ l < u0.weights.weights.length,
      matShape (u.weights.weights.getD l []) = matShape (u0.weights.weights.getD l []))
    (hbshape : ∀ u ∈ u0 :: rest, ∀ l < u0.weights.weights.length,
      matShape (u.weights.biases.getD l []) = matShape (u0.weights.biases.getD l []))
    (hS : 0 < ((u0 :: rest).map (fun u => u.sample_count)).sum) :
    ∃ agg : ModelWeights, federated_averaging (u0 :: rest) = some agg ∧
      ∀ l < u0.weights.weights.length, ∀ i j,
        entryD (agg.weights.getD l []) i j
          = ((u0 :: rest).map (fun u =>
              ((u.sample_count : ℚ) / ((((u0 :: rest).map (fun u => u.sample_count)).sum : ℕ) : ℚ))
                * entryD (u.weights.weights.getD l []) i j)).sum
        ∧ entryD (agg.biases.getD l []) i j
          = ((u0 :: rest).map (fun u =>
              ((u.sample_count : ℚ) / ((((u0 :: rest).map (fun u => u.sample_count)).sum : ℕ) : ℚ))
                * entryD (u.weights.biases.getD l []) i j)).sum := by
  have hlist :
      (((u0 :: rest).map (fun u => u.sample_count)).map
          (fun (c : ℕ) => (c : ℚ) / ((((u0 :: rest).map (fun u => u.sample_count)).sum : ℕ) : ℚ)))
        = (u0 :: rest).map (fun u =>
            ((u.sample_count : ℚ) / ((((u0 :: rest).map (fun u => u.sample_count)).sum : ℕ) : ℚ))) := by
    rw [List.map_map]; rfl
  have hwsum := sum_map_div_sum ((u0 :: rest).map (fun u => u.sample_count)) hS
  rw [hlist] at hwsum
  rw [List.map_cons] at hwsum
  simp only [federated_averaging]
  rw [hlist, List.map_cons, List.map_cons]
  obtain ⟨agg, h1, _h2, h3⟩ :=
    aggregate_entry u0.weights (rest.map (fun u => u.weights))
      ((fun u : ModelUpdate =>
          ((u.sample_count : ℚ) / ((((u0 :: rest).map (fun u => u.sample_count)).sum : ℕ) : ℚ))) u0)
      (rest.map (fun u =>
          ((u.sample_count : ℚ) / ((((u0 :: rest).map (fun u => u.sample_count)).sum : ℕ) : ℚ))))
      hwsum
      (by
        intro m hm l hl
        rcases List.mem_cons.mp hm with h | h
        · rw [h]
        · obtain ⟨u, hu, rfl⟩ := List.mem_map.mp h
          exact hwshape u (by simp [hu]) l hl)
      (by
        intro m hm l hl
        rcases List.mem_cons.mp hm with h | h
        · rw [h]
        · obtain ⟨u, hu, rfl⟩ := List.mem_map.mp h
          exact hbshape u (by simp [hu]) l hl)
  refine ⟨agg, h1, ?_⟩
  intro l hl i j
  obtain ⟨hw, hb⟩ := h3 l hl i j
  rw [← List.map_cons (fun u : ModelUpdate => u.weights) u0 rest] at hw hb
  rw [← List.map_cons (fun u : ModelUpdate =>
      ((u.sample_count : ℚ) / ((((u0 :: rest).map (fun u => u.sample_count)).sum : ℕ) : ℚ))) u0 rest]
    at hw hb
  rw [zipWith_map_both] at hw hb
  exact ⟨by rw [hw], by rw [hb]⟩

def c1upd1 : ModelUpdate := ⟨"d1", ⟨[[[1]]], [[[0]]], ⟨1, [], 1⟩⟩, 10, 1⟩

def c1upd2 : ModelUpdate := ⟨"d2", ⟨[[[2]]], [[[0]]], ⟨1, [], 1⟩⟩, 20, 1⟩

def c1upd3 : ModelUpdate := ⟨"d3", ⟨[[[3]]], [[[0]]], ⟨1, [], 1⟩⟩, 30, 1⟩

/-- Witness for C1: three updates with sample counts 10, 20, 30 and one
1 x 1 layer with weights 1, 2, 3; the FedAvg result is
`(10*1 + 20*2 + 30*3) / 60 = 7/3`, and the general theorem applies. -/
theorem fedavg_weighted_average_witness :
    federated_averaging [c1upd1, c1upd2, c1upd3]
        = some ⟨[[[(7 : ℚ)/3]]], [[[0]]], ⟨1, [], 1⟩⟩
    ∧ ∃ agg : ModelWeights, federated_averaging [c1upd1, c1upd2, c1upd3] = some agg ∧
      ∀ l < c1upd1.weights.weights.length, ∀ i j,
        entryD (agg.weights.getD l []) i j
          = (([c1upd1, c1upd2, c1upd3]).map (fun u =>
              ((u.sample_count : ℚ)
                / (((([c1upd1, c1upd2, c1upd3]).map (fun u => u.sample_count)).sum : ℕ) : ℚ))
                * entryD (u.weights.weights.getD l []) i j)).sum
        ∧ entryD (agg.biases.getD l []) i j
          = (([c1upd1, c1upd2, c1upd3]).map (fun u =>
              ((u.sample_count : ℚ)
                / (((([c1upd1, c1upd2, c1upd3]).map (fun u => u.sample_count)).sum : ℕ) : ℚ))
                * entryD (u.weights.biases.getD l []) i j)).sum :=
  ⟨by
      simp only [federated_averaging, aggregate_model_weights, c1upd1, c1upd2, c1upd3,
        List.map_cons, List.map_nil, List.sum_cons, List.sum_nil, List.range_succ,
        List.range_zero, sumMats, matAdd, vecAdd, matSmul, List.foldl_cons, List.foldl_nil,
        List.zipWith_cons_cons, List.zipWith_nil_right, List.zipWith_nil_left,
        List.getD, List.getElem?_cons_zero, List.getElem?_cons_succ, List.getElem?_nil,
        Option.getD_some, Option.getD_none, List.map_append, List.nil_append,
        List.append_nil, List.length_cons, List.length_nil, zero_add,
        show List.range 1 = [0] from rfl]
      norm_num [vecAdd],
    fedavg_weighted_average c1upd1 [c1upd2, c1upd3]
      (by decide) (by decide) (by decide) (by decide)⟩

theorem aggregate_some_eq_none (m0 : ModelWeights) (mrest : List ModelWeights) (l : List ℚ)
    (h : l.map (fun x => x / l.sum)
        = List.replicate (m0 :: mrest).length ((1 : ℚ) / (((m0 :: mrest).length : ℕ) : ℚ))) :
    aggregate_model_weights (m0 :: mrest) (some l)
      = aggregate_model_weights (m0 :: mrest) none := by
  simp only [aggregate_model_weights]
  rw [h]

/-- C6: on a non-empty list of updates with identical architectures in which
every update has the same positive sample count, FedAvg aggregation and
equal-weight aggregation return the same result. -/
theorem equal_eq_fedavg (u0 : ModelUpdate) (rest : List ModelUpdate) (c : ℕ) (hc : 0 < c)
    (hcount : ∀ u ∈ u0 :: rest, u.sample_count = c)
    (_harch : ∀ u ∈ u0 :: rest, u.weights.architecture = u0.weights.architecture) :
    federated_averaging (u0 :: rest) = equal_averaging (u0 :: rest) := by
  have hcounts : (u0 :: rest).map (fun u => u.sample_count)
      = List.replicate (u0 :: rest).length c := by
    rw [List.eq_replicate_iff]
    refine ⟨by simp, ?_⟩
    intro x hx
    obtain ⟨u, hu, rfl⟩ := List.mem_map.mp hx
    exact hcount u hu
  have hS : 0 < ((u0 :: rest).map (fun u => u.sample_count)).sum := by
    rw [hcounts, List.sum_replicate, smul_eq_mul]
    exact Nat.mul_pos (by simp) hc
  have hc0 : ((c : ℕ) : ℚ) ≠ 0 := by exact_mod_cast Nat.pos_iff_ne_zero.mp hc
  have hSval : ((u0 :: rest).map (fun u => u.sample_count)).sum = (u0 :: rest).length * c := by
    rw [hcounts, List.sum_replicate, smul_eq_mul]
  have hfc : ((c : ℕ) : ℚ) / ((((u0 :: rest).length * c : ℕ) : ℕ) : ℚ)
      = (1 : ℚ) / (((u0 :: rest).length : ℕ) : ℚ) := by
    push_cast
    rw [mul_comm, div_mul_eq_div_div, div_self hc0]
  have hws : (((u0 :: rest).map (fun u => u.sample_count)).map
        (fun (x : ℕ) => (x : ℚ) / ((((u0 :: rest).map (fun u => u.sample_count)).sum : ℕ) : ℚ)))
      = List.replicate (u0 :: rest).length ((1 : ℚ) / (((u0 :: rest).length : ℕ) : ℚ)) := by
    rw [hSval, hcounts, List.map_replicate, hfc]
  have hsum1 := sum_map_div_sum ((u0 :: rest).map (fun u => u.sample_count)) hS
  simp only [federated_averaging, equal_averaging]
  rw [List.map_cons (fun u : ModelUpdate => u.weights) u0 rest]
  rw [aggregate_some_eq_none]
  rw [normalize_sum_one _ hsum1, hws]
  simp

def c6upd1 : ModelUpdate := ⟨"d1", ⟨[[[1, 2]]], [[[0]]], ⟨2, [], 1⟩⟩, 5, 1⟩

def c6upd2 : ModelUpdate := ⟨"d2", ⟨[[[3, 4]]], [[[1]]], ⟨2, [], 1⟩⟩, 5, 1⟩

/-- Witness for C6: two updates with equal sample count 5 give the same
FedAvg and equal-weight aggregate. -/
theorem equal_eq_fedavg_witness :
    federated_averaging [c6upd1, c6upd2] = equal_averaging [c6upd1, c6upd2] :=
  equal_eq_fedavg c6upd1 [c6upd2] 5 (by decide) (by decide) (by decide)

/-- C3: `ModelAggregator.aggregate` fails with `EmptyUpdateSet` whenever the
update list is empty, and fails with `UnknownStrategy` whenever the list is
non-empty and the strategy tag is none of fedavg, equal, weighted, median
(the empty check runs first, so it takes precedence). -/
theorem aggregate_error_cases (strategy : String) (count : ℕ) (updates : List ModelUpdate) :
    (updates = [] →
      ModelAggregator.aggregate strategy count updates = .error .emptyUpdateSet)
    ∧ (updates ≠ [] → strategy ≠ "fedavg" → strategy ≠ "equal" →
        strategy ≠ "weighted" → strategy ≠ "median" →
      ModelAggregator.aggregate strategy count updates = .error .unknownStrategy) := by
  constructor
  · rintro rfl
    rfl
  · intro hne h1 h2 h3 h4
    simp only [ModelAggregator.aggregate]
    rw [if_neg (by simpa [List.isEmpty_iff] using hne)]
    rw [if_neg h1, if_neg h2, if_neg h3, if_neg h4]

def c3upd : ModelUpdate := ⟨"d1", ⟨[[[1]]], [[[0]]], ⟨1, [], 1⟩⟩, 1, 1⟩

/-- Witness for C3: the empty list and the unrecognized tag `krum`. -/
theorem aggregate_error_cases_witness :
    ModelAggregator.aggregate "fedavg" 0 ([] : List ModelUpdate)
        = .error .emptyUpdateSet
    ∧ ModelAggregator.aggregate "krum" 0 [c3upd] = .error .unknownStrategy :=
  ⟨(aggregate_error_cases "fedavg" 0 []).1 rfl,
   (aggregate_error_cases "krum" 0 [c3upd]).2 (by decide) (by decide) (by decide)
     (by decide) (by decide)⟩

/-- C2 amended: no aggregation strategy checks architecture compatibility.
For every recognized strategy tag and every non-empty update list whose
tensor shapes agree layer by layer - with no hypothesis relating the
architecture dictionaries themselves - `aggregate` succeeds and returns a
combined weight set stamped with the first update's architecture, rather
than rejecting with `IncompatibleArchitectures`.  The shape and positivity
hypotheses confine the statement to the domain where the float code raises
no `IndexError`, numpy shape error, or `ZeroDivisionError`; the
architecture metadata is never consulted. -/
theorem aggregate_no_arch_check (strategy : String) (count : ℕ)
    (u0 : ModelUpdate) (rest : List ModelUpdate)
    (hs : strategy ∈ ["fedavg", "equal", "weighted", "median"])
    (_hlen : ∀ u ∈ u0 :: rest, u.weights.weights.length = u0.weights.weights.length)
    (_hblen : ∀ u ∈ u0 :: rest, u.weights.biases.length = u0.weights.biases.length)
    (_hwshape : ∀ u ∈ u0 :: rest, ∀ l < u0.weights.weights.length,
      matShape (u.weights.weights.getD l []) = matShape (u0.weights.weights.getD l []))
    (_hbshape : ∀ u ∈ u0 :: rest, ∀ l < u0.weights.weights.length,
      matShape (u.weights.biases.getD l []) = matShape (u0.weights.biases.getD l []))
    (_hS : 0 < ((u0 :: rest).map (fun u => u.sample_count)).sum)
    (_hW : 0 < ((u0 :: rest).map (fun u => u.weight)).sum) :
    ∃ w meta, ModelAggregator.aggregate strategy count (u0 :: rest) = .ok (some w, meta)
      ∧ w.architecture = u0.weights.architecture := by
  simp only [List.mem_cons, List.mem_singleton, List.not_mem_nil, or_false] at hs
  rcases hs with rfl | rfl | rfl | rfl
  · simp only [ModelAggregator.aggregate, List.isEmpty_cons, federated_averaging,
      aggregate_model_weights, List.map_cons]
    exact ⟨_, _, rfl, rfl⟩
  · simp only [ModelAggregator.aggregate, List.isEmpty_cons, equal_averaging,
      aggregate_model_weights, List.map_cons]
    exact ⟨_, _, rfl, rfl⟩
  · simp only [ModelAggregator.aggregate, List.isEmpty_cons, weighted_averaging,
      aggregate_model_weights, List.map_cons]
    exact ⟨_, _, rfl, rfl⟩
  · simp only [ModelAggregator.aggregate, List.isEmpty_cons, median_aggregation,
      aggregate_model_weights, List.map_cons]
    exact ⟨_, _, rfl, rfl⟩

def c2updA : ModelUpdate := ⟨"d1", ⟨[[[2]]], [[[0]]], ⟨1, [], 1⟩⟩, 1, 1⟩

def c2updB : ModelUpdate := ⟨"d2", ⟨[[[4]]], [[[0]]], ⟨2, [], 1⟩⟩, 1, 1⟩

/-- Counterexample for C2: two updates whose architecture dictionaries
differ (input size 1 versus 2); `aggregate` with the fedavg strategy does
not reject them - it returns the combined weights carrying the first
update's architecture. -/
theorem aggregate_mixed_arch_counterexample :
    c2updA.weights.architecture ≠ c2updB.weights.architecture
    ∧ ModelAggregator.aggregate "fedavg" 0 [c2updA, c2updB]
        = .ok (some ⟨[[[3]]], [[[0]]], ⟨1, [], 1⟩⟩, ⟨0, "fedavg", 2, ["d1", "d2"], 2⟩) := by
  constructor
  · decide
  · simp only [ModelAggregator.aggregate, federated_averaging, aggregate_model_weights,
      c2updA, c2updB, List.isEmpty_cons,
      List.map_cons, List.map_nil, List.sum_cons, List.sum_nil, List.range_succ,
      List.range_zero, sumMats, matAdd, vecAdd, matSmul, List.foldl_cons, List.foldl_nil,
      List.zipWith_cons_cons, List.zipWith_nil_right, List.zipWith_nil_left,
      List.getD, List.getElem?_cons_zero, List.getElem?_cons_succ, List.getElem?_nil,
      Option.getD_some, Option.getD_none, List.map_append, List.nil_append,
      List.append_nil, List.length_cons, List.length_nil, zero_add,
      show List.range 1 = [0] from rfl]
    norm_num [vecAdd]

/-- Witness for C2 amended: the same mixed-architecture pair - equal tensor
shapes, differing architecture dictionaries - is accepted by all four
strategies. -/
theorem aggregate_no_arch_check_witness :
    c2updA.weights.architecture ≠ c2updB.weights.architecture
    ∧ (∃ w meta, ModelAggregator.aggregate "fedavg" 0 [c2updA, c2updB]
        = .ok (some w, meta) ∧ w.architecture = c2updA.weights.architecture)
    ∧ (∃ w meta, ModelAggregator.aggregate "equal" 0 [c2updA, c2updB]
        = .ok (some w, meta) ∧ w.architecture = c2updA.weights.architecture)
    ∧ (∃ w meta, ModelAggregator.aggregate "weighted" 0 [c2updA, c2updB]
        = .ok (some w, meta) ∧ w.architecture = c2updA.weights.architecture)
    ∧ (∃ w meta, ModelAggregator.aggregate "median" 0 [c2updA, c2updB]
        = .ok (some w, meta) ∧ w.architecture = c2updA.weights.architecture) :=
  ⟨by decide,
   aggregate_no_arch_check "fedavg" 0 c2updA [c2updB] (by simp) (by decide)
     (by decide) (by decide) (by decide) (by decide)
     (by norm_num [c2updA, c2updB]),
   aggregate_no_arch_check "equal" 0 c2updA [c2updB] (by simp) (by decide)
     (by decide) (by decide) (by decide) (by decide)
     (by norm_num [c2updA, c2updB]),
   aggregate_no_arch_check "weighted" 0 c2updA [c2updB] (by simp) (by decide)
     (by decide) (by decide) (by decide) (by decide)
     (by norm_num [c2updA, c2updB]),
   aggregate_no_arch_check "median" 0 c2updA [c2updB] (by simp) (by decide)
     (by decide) (by decide) (by decide) (by decide)
     (by norm_num [c2updA, c2updB])⟩

theorem slideWindow_of_le (b : List Reading) (h : b.length ≤ 1000) : slideWindow b = b := by
  simp only [slideWindow]
  rw [if_neg (by omega)]

theorem slideWindow_of_eq (b : List Reading) (h : b.length = 1001) : slideWindow b = b.tail := by
  simp only [slideWindow]
  rw [if_pos (by omega)]

theorem process_data_state {M : Type} (trainStep : M → List ℚ → List ℚ → M × ℚ)
    (predict : M → List ℚ → List ℚ) (uf : ℕ) (st : SessionState M) (s : Sensors) (ts : ℕ) :
    (process_data trainStep predict uf st s ts).2.buffer
      = slideWindow (st.buffer ++ [⟨s, ts⟩]) := by
  simp only [process_data]
  split
  · split <;> rfl
  · rfl

theorem process_data_fold_buffer {M : Type} (trainStep : M → List ℚ → List ℚ → M × ℚ)
    (predict : M → List ℚ → List ℚ) (uf : ℕ) :
    ∀ (rs : List (Sensors × ℕ)) (st : SessionState M),
      st.buffer.length ≤ 1000 →
      st.buffer.length + rs.length ≤ 1001 →
      (rs.foldl (fun st p => (process_data trainStep predict uf st p.1 p.2).2) st).buffer
        = (st.buffer ++ rs.map (fun p => (⟨p.1, p.2⟩ : Reading))).drop
            (st.buffer.length + rs.length - 1000) := by
  intro rs
  induction rs with
  | nil =>
    intro st h0 h
    simp only [List.foldl_nil, List.map_nil, List.append_nil, List.length_nil, Nat.add_zero]
    rw [Nat.sub_eq_zero_of_le (by omega), List.drop_zero]
  | cons r rs ih =>
    intro st h0 h
    simp only [List.foldl_cons]
    by_cases hlen : st.buffer.length + 1 ≤ 1000
    · have hb : (process_data trainStep predict uf st r.1 r.2).2.buffer
          = st.buffer ++ [⟨r.1, r.2⟩] := by
        rw [process_data_state, slideWindow_of_le _ (by simp; omega)]
      rw [ih _ (by rw [hb]; simp; omega) (by rw [hb]; simp at h ⊢; omega)]
      rw [hb]
      have h1 : (st.buffer ++ [(⟨r.1, r.2⟩ : Reading)])
            ++ rs.map (fun p => (⟨p.1, p.2⟩ : Reading))
          = st.buffer
            ++ ((⟨r.1, r.2⟩ : Reading) :: rs.map (fun p => (⟨p.1, p.2⟩ : Reading))) := by
        rw [List.append_assoc, List.singleton_append]
      have h2 : (st.buffer ++ [(⟨r.1, r.2⟩ : Reading)]).length + rs.length - 1000
          = st.buffer.length + (r :: rs).length - 1000 := by
        rw [List.length_append, List.length_singleton, List.length_cons]
        omega
      rw [h1, h2, List.map_cons]
    · have hh : st.buffer.length + (rs.length + 1) ≤ 1001 := by simpa using h
      have hfull : st.buffer.length = 1000 := by omega
      have hrs : rs = [] := List.length_eq_zero.mp (by omega)
      subst hrs
      have hlen1 : (st.buffer ++ [(⟨r.1, r.2⟩ : Reading)]).length = 1001 := by
        simp [hfull]
      have hb : (process_data trainStep predict uf st r.1 r.2).2.buffer
          = (st.buffer ++ [(⟨r.1, r.2⟩ : Reading)]).tail := by
        rw [process_data_state, slideWindow_of_eq _ hlen1]
      simp only [List.foldl_nil, List.map_cons, List.map_nil]
      rw [hb]
      have hidx : st.buffer.length + [r].length - 1000 = 1 := by
        simp [hfull]
      rw [hidx, List.drop_one]

theorem tail_append_singleton (b : List Reading) (r : Reading) (hb : b ≠ []) :
    (b ++ [r]).tail = b.tail ++ [r] := by
  cases b with
  | nil => exact absurd rfl hb
  | cons x xs => rfl

theorem slideWindow_length_le (b : List Reading) (h : b.length ≤ 1001) :
    (slideWindow b).length ≤ 1000 := by
  by_cases hgt : b.length > 1000
  · simp only [slideWindow]
    rw [if_pos hgt]
    simp only [List.length_tail]
    omega
  · simp only [slideWindow]
    rw [if_neg hgt]
    omega

theorem slide_len2 (b : List Reading) (r : Reading) (hb : b ≠ []) :
    (slideWindow (b ++ [r])).length ≥ 2 := by
  have hb1 : 1 ≤ b.length := List.length_pos.mpr hb
  by_cases hgt : (b ++ [r]).length > 1000
  · simp only [slideWindow]
    rw [if_pos hgt]
    simp only [List.length_tail]
    simp only [List.length_append, List.length_singleton] at hgt ⊢
    omega
  · simp only [slideWindow]
    rw [if_neg hgt]
    simp only [List.length_append, List.length_singleton]
    omega

theorem getD_append_singleton_last (b : List Reading) (r : Reading) :
    (b ++ [r]).getD b.length default = r := by
  rw [List.getD_append_right _ _ _ _ (le_refl _)]
  simp

theorem getD_cons_of_pos (x : Reading) (l : List Reading) (n : ℕ) (h : 0 < n) :
    (x :: l).getD n default = l.getD (n - 1) default := by
  cases n with
  | zero => omega
  | succ m => simp [List.getD_cons_succ]

theorem slide_last (b : List Reading) (r : Reading) :
    (slideWindow (b ++ [r])).getD ((slideWindow (b ++ [r])).length - 1) default = r := by
  by_cases hgt : (b ++ [r]).length > 1000
  · simp only [slideWindow]
    rw [if_pos hgt]
    cases b with
    | nil => simp at hgt
    | cons x xs =>
      simp only [List.cons_append, List.tail_cons]
      have i1 : (xs ++ [r]).length - 1 = xs.length := by simp
      rw [i1]
      exact getD_append_singleton_last xs r
  · simp only [slideWindow]
    rw [if_neg hgt]
    have i1 : (b ++ [r]).length - 1 = b.length := by simp
    rw [i1]
    exact getD_append_singleton_last b r

theorem slide_secondLast (b : List Reading) (r : Reading) (hb : b ≠ []) :
    (slideWindow (b ++ [r])).getD ((slideWindow (b ++ [r])).length - 2) default
      = b.getD (b.length - 1) default := by
  obtain ⟨k, hk⟩ : ∃ k, b.length = k + 1 :=
    ⟨b.length - 1, by have := List.length_pos.mpr hb; omega⟩
  by_cases hgt : (b ++ [r]).length > 1000
  · cases b with
    | nil => exact absurd rfl hb
    | cons x xs =>
      simp only [slideWindow]
      rw [if_pos hgt]
      simp only [List.cons_append, List.tail_cons]
      simp only [List.length_cons] at hk
      have hxs : xs.length = k := by omega
      have hk1 : 1 ≤ k := by
        have hlen : (x :: xs ++ [r]).length = xs.length + 2 := by simp
        omega
      have i1 : (xs ++ [r]).length - 2 = k - 1 := by simp [hxs]
      rw [i1, List.getD_append _ _ _ _ (by omega)]
      have i2 : (x :: xs).length - 1 = k := by simp [hxs]
      rw [i2, getD_cons_of_pos _ _ _ (by omega)]
  · simp only [slideWindow]
    rw [if_neg hgt]
    have i1 : (b ++ [r]).length - 2 = b.length - 1 := by simp [hk]
    rw [i1, List.getD_append _ _ _ _ (by omega)]

theorem extractFeatures_malformed (s : Sensors)
    (h : s.temperature = none ∨ s.humidity = none ∨ s.light = none ∨ s.voltage = none) :
    ∃ e, extractFeatures s = .error e := by
  cases ht : s.temperature with
  | none => exact ⟨⟨"temperature"⟩, by simp [extractFeatures, getField, ht]⟩
  | some tv =>
    cases hh : s.humidity with
    | none => exact ⟨⟨"humidity"⟩, by simp [extractFeatures, getField, ht, hh]⟩
    | some hv =>
      cases hl : s.light with
      | none => exact ⟨⟨"light"⟩, by simp [extractFeatures, getField, ht, hh, hl]⟩
      | some lv =>
        cases hv2 : s.voltage with
        | none => exact ⟨⟨"voltage"⟩, by simp [extractFeatures, getField, ht, hh, hl, hv2]⟩
        | some vv =>
          rcases h with h | h | h | h <;> simp_all

theorem create_training_data_error (p : Sensors) (nxt : Sensors)
    (h : ∃ e, extractFeatures nxt = .error e) :
    ∃ e, create_training_data p (some nxt) = .error e := by
  obtain ⟨e, he⟩ := h
  cases hp : extractFeatures p with
  | error ep => exact ⟨ep, by simp [create_training_data, hp]⟩
  | ok X => exact ⟨e, by simp [create_training_data, hp, he]⟩

theorem process_data_of_empty {M : Type} (trainStep : M → List ℚ → List ℚ → M × ℚ)
    (predict : M → List ℚ → List ℚ) (uf : ℕ) (st : SessionState M) (s : Sensors) (ts : ℕ)
    (hb : st.buffer = []) :
    process_data trainStep predict uf st s ts
      = (Except.ok none, ⟨st.model, [⟨s, ts⟩], st.training_count⟩) := by
  simp only [process_data, hb, List.nil_append]
  rw [slideWindow_of_le _ (by simp)]
  rw [if_neg (by simp)]

/-- C10: appending a well-formed reading to a session whose buffer is empty
performs no training step - the model and `training_count` are unchanged and
no result is returned; once the buffer holds at least two readings, exactly
one training step runs with input = the previous reading's features and
target = the current reading's features, incrementing `training_count`. -/
theorem train_after_two_readings {M : Type} (trainStep : M → List ℚ → List ℚ → M × ℚ)
    (predict : M → List ℚ → List ℚ) (uf : ℕ) (st : SessionState M) (s : Sensors) (ts : ℕ) :
    (st.buffer = [] →
      process_data trainStep predict uf st s ts
        = (Except.ok none, ⟨st.model, [⟨s, ts⟩], st.training_count⟩))
    ∧ (st.buffer ≠ [] →
       ∀ Xp, extractFeatures ((st.buffer.getD (st.buffer.length - 1) default).sensors)
           = .ok Xp →
       ∀ Yc, extractFeatures s = .ok Yc →
      process_data trainStep predict uf st s ts
        = (Except.ok (some
            { timestamp := ts
            , sensors := s
            , prediction := predict (trainStep st.model Xp Yc).1 Xp
            , loss := (trainStep st.model Xp Yc).2
            , training_count := st.training_count + 1
            , update_sent := decide ((st.training_count + 1) % uf = 0) })
          , ⟨(trainStep st.model Xp Yc).1,
             slideWindow (st.buffer ++ [⟨s, ts⟩]), st.training_count + 1⟩)) := by
  constructor
  · exact process_data_of_empty trainStep predict uf st s ts
  · intro hb Xp hXp Yc hYc
    simp only [process_data]
    rw [if_pos (slide_len2 st.buffer ⟨s, ts⟩ hb)]
    rw [slide_last st.buffer ⟨s, ts⟩, slide_secondLast st.buffer ⟨s, ts⟩ hb]
    simp only [create_training_data, hXp, hYc]

/-- C4 amended: `process_data` appends the incoming reading to the buffer
before reading any sensor field.  With an empty prior buffer a reading
missing required fields is accepted silently (no error, no training); with a
non-empty prior buffer the call fails (Python `KeyError`), but the malformed
reading has already been buffered - only the model and training count are
left unchanged. -/
theorem process_data_malformed_behavior {M : Type} (trainStep : M → List ℚ → List ℚ → M × ℚ)
    (predict : M → List ℚ → List ℚ) (uf : ℕ) (st : SessionState M) (s : Sensors) (ts : ℕ)
    (hmal : s.temperature = none ∨ s.humidity = none ∨ s.light = none ∨ s.voltage = none) :
    (st.buffer = [] →
      process_data trainStep predict uf st s ts
        = (Except.ok none, ⟨st.model, [⟨s, ts⟩], st.training_count⟩))
    ∧ (st.buffer ≠ [] →
      ∃ e, process_data trainStep predict uf st s ts
        = (Except.error e,
           ⟨st.model, slideWindow (st.buffer ++ [⟨s, ts⟩]), st.training_count⟩)) := by
  constructor
  · exact process_data_of_empty trainStep predict uf st s ts
  · intro hb
    have hcur := slide_last st.buffer ⟨s, ts⟩
    simp only [process_data]
    rw [if_pos (slide_len2 st.buffer ⟨s, ts⟩ hb)]
    rw [hcur]
    obtain ⟨e, he⟩ := create_training_data_error
      ((slideWindow (st.buffer ++ [⟨s, ts⟩])).getD
        ((slideWindow (st.buffer ++ [⟨s, ts⟩])).length - 2) default).sensors
      s (extractFeatures_malformed s hmal)
    rw [he]
    exact ⟨e, rfl⟩

def c4step (m : ℚ) (X y : List ℚ) : ℚ × ℚ := (m + X.sum + y.sum, 0)

def c4pred (m : ℚ) (_X : List ℚ) : List ℚ := [m]

def c4bad : Sensors := ⟨none, some 2, some 3, some 4⟩

/-- Counterexample for C4: a reading missing `temperature` processed against
an empty buffer neither fails nor leaves the state unchanged - it returns
`ok none` and the buffer now holds the malformed reading. -/
theorem process_data_malformed_counterexample :
    process_data c4step c4pred 100 (⟨0, [], 0⟩ : SessionState ℚ) c4bad 7
      = (Except.ok none, ⟨0, [⟨c4bad, 7⟩], 0⟩)
    ∧ ([⟨c4bad, 7⟩] : List Reading) ≠ [] := by
  refine ⟨?_, by simp⟩
  exact process_data_of_empty c4step c4pred 100 ⟨0, [], 0⟩ c4bad 7 rfl

/-- C7: the reading buffer never exceeds the capacity 1000 (the constant in
the source); on overflow exactly the oldest entry is evicted (the whole
buffer shifts by one, strict FIFO); a non-full buffer grows by appending;
and after 1001 readings from an empty session exactly 1000 remain, with the
first-submitted reading gone. -/
theorem buffer_fifo_bound {M : Type} (trainStep : M → List ℚ → List ℚ → M × ℚ)
    (predict : M → List ℚ → List ℚ) (uf : ℕ) (m0 : M) :
    (∀ (st : SessionState M) (s : Sensors) (ts : ℕ), st.buffer.length ≤ 1000 →
      ((process_data trainStep predict uf st s ts).2.buffer.length ≤ 1000
        ∧ (st.buffer.length = 1000 →
            (process_data trainStep predict uf st s ts).2.buffer
              = st.buffer.tail ++ [⟨s, ts⟩])
        ∧ (st.buffer.length < 1000 →
            (process_data trainStep predict uf st s ts).2.buffer
              = st.buffer ++ [⟨s, ts⟩])))
    ∧ ∀ rs : List (Sensors × ℕ), rs.length = 1001 →
        (rs.foldl (fun st p => (process_data trainStep predict uf st p.1 p.2).2)
            (⟨m0, [], 0⟩ : SessionState M)).buffer
          = (rs.map (fun p => (⟨p.1, p.2⟩ : Reading))).tail := by
  constructor
  · intro st s ts hle
    refine ⟨?_, ?_, ?_⟩
    · rw [process_data_state]
      refine slideWindow_length_le _ ?_
      simp only [List.length_append, List.length_singleton]
      omega
    · intro hfull
      rw [process_data_state, slideWindow_of_eq _ (by simp [hfull])]
      refine tail_append_singleton st.buffer ⟨s, ts⟩ ?_
      intro h
      rw [h] at hfull
      simp at hfull
    · intro hlt
      rw [process_data_state, slideWindow_of_le _ ?_]
      simp only [List.length_append, List.length_singleton]
      omega
  · intro rs hlen
    rw [process_data_fold_buffer trainStep predict uf rs ⟨m0, [], 0⟩ (by simp)
      (by simp [hlen])]
    simp only [List.length_nil, List.nil_append, Nat.zero_add, hlen]
    norm_num

def c4ok : Sensors := ⟨some 1, some 2, some 3, some 4⟩

/-- Witness for C4 amended: a session with one buffered well-formed reading,
model value 5 and training count 3; processing a reading without
`temperature` errors while the buffer has grown and model and count are
untouched. -/
theorem process_data_malformed_behavior_witness :
    ∃ e, process_data c4step c4pred 100 (⟨5, [⟨c4ok, 1⟩], 3⟩ : SessionState ℚ) c4bad 7
      = (Except.error e,
         ⟨5, slideWindow ([⟨c4ok, 1⟩] ++ [⟨c4bad, 7⟩]), 3⟩) :=
  (process_data_malformed_behavior c4step c4pred 100 ⟨5, [⟨c4ok, 1⟩], 3⟩ c4bad 7
      (Or.inl rfl)).2 (by simp)

def c7sensors : Sensors := ⟨some 1, some 2, some 3, some 4⟩

def c7step (m : Unit) (_X _y : List ℚ) : Unit × ℚ := (m, 0)

def c7pred (_m : Unit) (_X : List ℚ) : List ℚ := []

/-- Witness for C7: 1001 identical readings folded into an empty session of
a trivial model leave the last 1000 buffered. -/
theorem buffer_fifo_bound_witness :
    ((List.replicate 1001 ((c7sensors, 0) : Sensors × ℕ)).foldl
        (fun st p => (process_data c7step c7pred 100 st p.1 p.2).2)
        (⟨(), [], 0⟩ : SessionState Unit)).buffer
      = ((List.replicate 1001 ((c7sensors, 0) : Sensors × ℕ)).map
          (fun p => (⟨p.1, p.2⟩ : Reading))).tail :=
  (buffer_fifo_bound c7step c7pred 100 ()).2 _ (by simp)

def c10prev : Sensors := ⟨some 1, some 2, some 3, some 4⟩

def c10cur : Sensors := ⟨some 5, some 6, some 7, some 8⟩

def c10step (m : ℚ) (X y : List ℚ) : ℚ × ℚ := (m + X.sum + y.sum, 1)

def c10pred (m : ℚ) (_X : List ℚ) : List ℚ := [m]

/-- Witness for C10: the first reading of a fresh session trains nothing;
the second reading trains once with input `[1,2,3,4]` (previous) and target
`[5,6,7,8]` (current). -/
theorem train_after_two_readings_witness :
    (process_data c10step c10pred 100 (⟨0, [], 0⟩ : SessionState ℚ) c10prev 1
      = (Except.ok none, ⟨0, [⟨c10prev, 1⟩], 0⟩))
    ∧ (process_data c10step c10pred 100 (⟨0, [⟨c10prev, 1⟩], 0⟩ : SessionState ℚ) c10cur 5
      = (Except.ok (some
          { timestamp := 5
          , sensors := c10cur
          , prediction := c10pred (c10step 0 [1, 2, 3, 4] [5, 6, 7, 8]).1 [1, 2, 3, 4]
          , loss := (c10step 0 [1, 2, 3, 4] [5, 6, 7, 8]).2
          , training_count := 0 + 1
          , update_sent := decide ((0 + 1) % 100 = 0) })
        , ⟨(c10step 0 [1, 2, 3, 4] [5, 6, 7, 8]).1,
           slideWindow ([⟨c10prev, 1⟩] ++ [⟨c10cur, 5⟩]), 0 + 1⟩)) :=
  ⟨(train_after_two_readings c10step c10pred 100 ⟨0, [], 0⟩ c10prev 1).1 rfl,
   (train_after_two_readings c10step c10pred 100 ⟨0, [⟨c10prev, 1⟩], 0⟩ c10cur 5).2
     (by simp) [1, 2, 3, 4] rfl [5, 6, 7, 8] rfl⟩

theorem dictGet_dictSet_self (c : List (String × ℕ)) (d : String) (v : ℕ) :
    dictGet (dictSet c d v) d = some v := by
  induction c with
  | nil => simp [dictSet, dictGet]
  | cons p t ih =>
    obtain ⟨k, w⟩ := p
    by_cases h : k = d
    · simp [dictSet, dictGet, h]
    · simp [dictSet, dictGet, h, ih]

theorem dictGet_dictSet_other (c : List (String × ℕ)) (d e : String) (v : ℕ) (h : e ≠ d) :
    dictGet (dictSet c d v) e = dictGet c e := by
  induction c with
  | nil =>
    simp only [dictSet, dictGet]
    rw [if_neg (fun hh => h hh.symm)]
  | cons p t ih =>
    obtain ⟨k, w⟩ := p
    by_cases hk : k = d
    · subst hk
      simp only [dictSet, if_pos rfl, dictGet]
      rw [if_neg (fun hh => h hh.symm), if_neg (fun hh => h hh.symm)]
    · simp only [dictSet, if_neg hk, dictGet]
      by_cases hke : k = e
      · rw [if_pos hke, if_pos hke]
      · rw [if_neg hke, if_neg hke, ih]

theorem contribOf_bump (c : List (String × ℕ)) (d e : String) :
    contribOf (bumpContribution c d) e
      = if e = d then contribOf c d + 1 else contribOf c e := by
  by_cases h : e = d
  · subst h
    simp [bumpContribution, contribOf, dictGet_dictSet_self]
  · simp [bumpContribution, contribOf, dictGet_dictSet_other c d e _ h, h]

theorem contribOf_fold_bump (ids : List String) (c : List (String × ℕ)) (e : String) :
    contribOf (ids.foldl bumpContribution c) e = contribOf c e + ids.count e := by
  induction ids generalizing c with
  | nil => simp
  | cons i t ih =>
    rw [List.foldl_cons, ih, contribOf_bump]
    by_cases h : e = i
    · subst h
      rw [List.count_cons_self, if_pos rfl]
      omega
    · rw [List.count_cons_of_ne h, if_neg h]

def ContribInv (g : GlobalModelState) : Prop :=
  ∀ d, contribOf g.device_contributions d
    = (g.aggregation_history.map (fun m => m.device_ids.count d)).sum

theorem aggregate_updates_preserves (g : GlobalModelState) (us : List ModelUpdate)
    (strat : String) (h : ContribInv g) :
    ContribInv (GlobalModel.aggregate_updates g us strat).2 := by
  cases us with
  | nil => simpa [GlobalModel.aggregate_updates] using h
  | cons u t =>
    intro d
    simp only [GlobalModel.aggregate_updates, List.map_cons, aggregate_model_weights]
    rw [contribOf_fold_bump, h d]
    simp [List.count_cons]

/-- C8 amended: after every sequence of aggregation rounds starting from a
fresh global model, `device_contributions[d]` equals the total number of
updates contributed by `d`, i.e. the sum over history rounds of the number
of occurrences of `d` in that round's `device_ids` (a device with several
updates in one round is counted once per update, not once per round). -/
theorem contributions_count_updates (w0 : ModelWeights)
    (rounds : List (List ModelUpdate × String)) (d : String) :
    contribOf
        ((rounds.foldl (fun g p => (GlobalModel.aggregate_updates g p.1 p.2).2)
          (GlobalModel.init w0)).device_contributions) d
      = (((rounds.foldl (fun g p => (GlobalModel.aggregate_updates g p.1 p.2).2)
          (GlobalModel.init w0)).aggregation_history).map
            (fun m => m.device_ids.count d)).sum := by
  have hinit : ContribInv (GlobalModel.init w0) := by
    intro e
    simp [GlobalModel.init, contribOf, dictGet]
  have hfold : ∀ (rs : List (List ModelUpdate × String)) (g : GlobalModelState),
      ContribInv g →
      ContribInv (rs.foldl (fun g p => (GlobalModel.aggregate_updates g p.1 p.2).2) g) := by
    intro rs
    induction rs with
    | nil => intro g hg; simpa using hg
    | cons p t ih =>
      intro g hg
      rw [List.foldl_cons]
      exact ih _ (aggregate_updates_preserves g p.1 p.2 hg)
  exact hfold rounds (GlobalModel.init w0) hinit d

def c8w0 : ModelWeights := ⟨[[[0]]], [[[0]]], ⟨1, [], 1⟩⟩

def c8upd1 : ModelUpdate := ⟨"d1", ⟨[[[1]]], [[[0]]], ⟨1, [], 1⟩⟩, 1, 1⟩

def c8upd2 : ModelUpdate := ⟨"d1", ⟨[[[3]]], [[[0]]], ⟨1, [], 1⟩⟩, 1, 1⟩

/-- Counterexample for C8: one successful round with two updates from the
same device `d1` leaves `device_contributions[d1] = 2`, while `d1` appears
in the `device_ids` of exactly one round. -/
theorem contributions_counterexample :
    contribOf ((GlobalModel.aggregate_updates (GlobalModel.init c8w0)
        [c8upd1, c8upd2] "fedavg").2.device_contributions) "d1" = 2
    ∧ (((GlobalModel.aggregate_updates (GlobalModel.init c8w0)
        [c8upd1, c8upd2] "fedavg").2.aggregation_history).filter
          (fun m => "d1" ∈ m.device_ids)).length = 1
    ∧ (2 : ℕ) ≠ 1 := by
  refine ⟨?_, ?_, by decide⟩
  · simp only [GlobalModel.aggregate_updates, List.map_cons, List.map_nil,
      aggregate_model_weights]
    decide
  · simp only [GlobalModel.aggregate_updates, List.map_cons, List.map_nil,
      aggregate_model_weights]
    decide

/-- C9: when `ModelAggregator.aggregate` fails with a strategy error,
`perform_aggregation` returns the state unchanged - pending updates,
aggregator counter and the whole global model (weights, history,
contribution counters) are preserved; and whenever a non-empty pending
buffer ends up cleared, the aggregation succeeded. -/
theorem strategy_error_preserves_state (st : SchedulerState) :
    (∀ e, ModelAggregator.aggregate st.strategy st.aggregation_count st.pending_updates
        = .error e → GlobalUpdateScheduler.perform_aggregation st = st)
    ∧ (st.pending_updates ≠ [] →
        (GlobalUpdateScheduler.perform_aggregation st).pending_updates = [] →
        ∃ w meta, ModelAggregator.aggregate st.strategy st.aggregation_count st.pending_updates
          = .ok (some w, meta)) := by
  constructor
  · intro e he
    simp only [GlobalUpdateScheduler.perform_aggregation]
    by_cases hp : st.pending_updates.isEmpty
    · rw [if_pos hp]
    · rw [if_neg hp, he]
  · intro hne hclear
    have hp : ¬ st.pending_updates.isEmpty = true := by
      simpa [List.isEmpty_iff] using hne
    rcases hagg : ModelAggregator.aggregate st.strategy st.aggregation_count
        st.pending_updates with e | ⟨aggOpt, meta⟩
    · exfalso
      apply hne
      have hid : GlobalUpdateScheduler.perform_aggregation st = st := by
        simp only [GlobalUpdateScheduler.perform_aggregation]
        rw [if_neg hp, hagg]
      rw [hid] at hclear
      exact hclear
    · cases aggOpt with
      | none =>
        exfalso
        apply hne
        have hid : (GlobalUpdateScheduler.perform_aggregation st).pending_updates
            = st.pending_updates := by
          simp only [GlobalUpdateScheduler.perform_aggregation]
          rw [if_neg hp, hagg]
        rw [hid] at hclear
        exact hclear
      | some w => exact ⟨w, meta, rfl⟩

def c9upd : ModelUpdate := ⟨"d1", ⟨[[[1]]], [[[0]]], ⟨1, [], 1⟩⟩, 1, 1⟩

def c9st : SchedulerState :=
  ⟨[c9upd], "zzz", 0, GlobalModel.init ⟨[[[0]]], [[[0]]], ⟨1, [], 1⟩⟩⟩

/-- Witness for C9: a scheduler configured with the unknown tag `zzz` and one
pending update is returned exactly as it was. -/
theorem strategy_error_preserves_state_witness :
    ModelAggregator.aggregate c9st.strategy c9st.aggregation_count c9st.pending_updates
        = .error .unknownStrategy
    ∧ GlobalUpdateScheduler.perform_aggregation c9st = c9st :=
  ⟨by decide,
   (strategy_error_preserves_state c9st).1 .unknownStrategy (by decide)⟩

def c5u1 : ModelUpdate := ⟨"d1", ⟨[[[1]]], [], ⟨1, [], 1⟩⟩, 1, 1⟩

def c5u2 : ModelUpdate := ⟨"d2", ⟨[[[1]]], [], ⟨1, [], 1⟩⟩, 1, 1⟩

def c5u3 : ModelUpdate := ⟨"d3", ⟨[[[0]]], [], ⟨1, [], 1⟩⟩, 1, 1⟩

theorem c5_sim12 : compute_model_similarity c5u1.weights c5u2.weights = 1 := by
  simp only [compute_model_similarity]
  rw [if_neg (by norm_num [flattenWeights, normSq, dotQ, c5u1, c5u2])]
  norm_num [flattenWeights, normSq, dotQ, c5u1, c5u2, Real.sqrt_one]

theorem c5_sim13 : compute_model_similarity c5u1.weights c5u3.weights = 0 := by
  simp only [compute_model_similarity]
  rw [if_pos (Or.inr (by norm_num [flattenWeights, normSq, dotQ, c5u3]))]

theorem c5_sim23 : compute_model_similarity c5u2.weights c5u3.weights = 0 := by
  simp only [compute_model_similarity]
  rw [if_pos (Or.inr (by norm_num [flattenWeights, normSq, dotQ, c5u3]))]

/-- Counterexample for C5: three updates with flattened vectors `[1]`, `[1]`,
`[0]`; the third has zero norm, yet the consensus score is the average
`(1 + 0 + 0) / 3 = 1/3`, not `0`. -/
theorem consensus_zero_norm_counterexample :
    compute_consensus_score [c5u1, c5u2, c5u3] = 1 / 3
    ∧ normSq (flattenWeights c5u3.weights) = 0
    ∧ ((1 : ℝ) / 3 ≠ 0) := by
  refine ⟨?_, by norm_num [flattenWeights, normSq, dotQ, c5u3], by norm_num⟩
  simp only [compute_consensus_score]
  rw [if_neg (by norm_num)]
  simp only [List.map_cons, List.map_nil, pairSims, List.append_nil, List.nil_append,
    c5_sim12, c5_sim13, c5_sim23]
  norm_num

theorem pairSims_length (l : List ModelWeights) : (pairSims l).length = l.length.choose 2 := by
  induction l with
  | nil => simp [pairSims]
  | cons m rest ih =>
    simp only [pairSims, List.length_append, List.length_map, ih, List.length_cons]
    rw [Nat.choose_succ_succ, Nat.choose_one_right]

/-- C5 amended: `compute_consensus_score` returns `1` when `n < 2`; for
`n >= 2` it returns the sum of the pairwise similarities divided by the
number of unordered pairs `n.choose 2` (the double loop enumerates exactly
that many pairs); a zero-norm vector zeroes only the pairs it belongs to -
in particular with exactly two updates, one zero-norm vector forces score
`0`. -/
theorem consensus_structure (updates : List ModelUpdate) :
    (updates.length < 2 → compute_consensus_score updates = 1)
    ∧ (2 ≤ updates.length →
        compute_consensus_score updates
          = (pairSims (updates.map (fun u => u.weights))).sum
              / ((updates.length.choose 2 : ℕ) : ℝ)
        ∧ (pairSims (updates.map (fun u => u.weights))).length
            = updates.length.choose 2)
    ∧ (∀ u v, updates = [u, v] →
        normSq (flattenWeights u.weights) = 0 ∨ normSq (flattenWeights v.weights) = 0 →
        compute_consensus_score updates = 0) := by
  refine ⟨?_, ?_, ?_⟩
  · intro h
    simp only [compute_consensus_score]
    rw [if_pos h]
  · intro h
    have hlen : (pairSims (updates.map (fun u => u.weights))).length
        = updates.length.choose 2 := by
      rw [pairSims_length, List.length_map]
    refine ⟨?_, hlen⟩
    simp only [compute_consensus_score]
    rw [if_neg (by omega)]
    have hpos : 0 < updates.length.choose 2 := Nat.choose_pos h
    rw [if_neg (by
      simp only [List.isEmpty_iff]
      intro hnil
      rw [hnil] at hlen
      simp at hlen
      omega)]
    rw [hlen]
  · intro u v hu hz
    subst hu
    simp only [compute_consensus_score]
    rw [if_neg (by norm_num)]
    simp only [List.map_cons, List.map_nil, pairSims, List.append_nil, List.nil_append]
    rw [show compute_model_similarity u.weights v.weights = 0 from by
      simp only [compute_model_similarity]
      rw [if_pos hz]]
    norm_num

/-- Witness for C5 amended: a singleton scores `1`; a pair scores the
averaged pair similarity over `2.choose 2 = 1` pair; a pair with one
zero-norm vector scores `0`. -/
theorem consensus_structure_witness :
    compute_consensus_score [c5u1] = 1
    ∧ (compute_consensus_score [c5u1, c5u2]
        = (pairSims ([c5u1, c5u2].map (fun u => u.weights))).sum
            / ((([c5u1, c5u2] : List ModelUpdate).length.choose 2 : ℕ) : ℝ)
      ∧ (pairSims ([c5u1, c5u2].map (fun u => u.weights))).length
          = ([c5u1, c5u2] : List ModelUpdate).length.choose 2)
    ∧ compute_consensus_score [c5u1, c5u3] = 0 :=
  ⟨(consensus_structure [c5u1]).1 (by decide),
   (consensus_structure [c5u1, c5u2]).2.1 (by decide),
   (consensus_structure [c5u1, c5u3]).2.2 c5u1 c5u3 rfl
     (Or.inr (by norm_num [flattenWeights, normSq, dotQ, c5u3]))⟩
